import Mathlib

/-!
Verification of the incremental Bitbucket commit-sync program
(`bitbucket_commits_update.py`).

The program is embedded shallowly:

* Python strings are `String`; Python's lexicographic string comparison
  (by code point) is `lexLt` / `strLt` / `strLe` below.
* `datetime` values, where only their difference in seconds matters
  (`get_tzinfo_from_dt`), are `Int` seconds.
* The parsed `datetime` produced by the external `dateutil.parser.parse`
  (used by `parse_timestamp_utc`) is the structure `PyDateTime`; the
  `str(...)` rendering of such a value is `pyStrChars`.
* HTTP responses are oracles passed in as data: the sequence of JSON pages
  returned by `get_commits` is a `List Page`, the body of the notification
  endpoint's reply is a `String` argument of `post`.
* The Redis checkpoint store is an association list from keys to the
  stored value; a `set` whose argument is Python `None` stores `none`.
-/

/-- Python's `<` on strings, on the underlying character lists:
lexicographic by code point, a proper prefix is smaller. -/
def lexLt : List Char → List Char → Bool
  | [], [] => false
  | [], _ :: _ => true
  | _ :: _, [] => false
  | a :: as, b :: bs =>
    if a.val.toNat < b.val.toNat then true
    else if b.val.toNat < a.val.toNat then false
    else lexLt as bs

/-- Python's `a < b` on strings. -/
def strLt (a b : String) : Bool := lexLt a.toList b.toList

/-- Python's `a <= b` on strings (total order: `a <= b` iff not `b < a`). -/
def strLe (a b : String) : Bool := !(strLt b a)

lemma lexLt_irrefl : ∀ l : List Char, lexLt l l = false := by
  intro l
  induction l with
  | nil => rfl
  | cons a as ih => simp [lexLt, ih]

lemma lexLt_asymm : ∀ a b : List Char, lexLt a b = true → lexLt b a = false := by
  intro a
  induction a with
  | nil =>
    intro b h
    cases b with
    | nil => simp [lexLt] at h
    | cons x xs => simp [lexLt]
  | cons x xs ih =>
    intro b h
    cases b with
    | nil => simp [lexLt] at h
    | cons y ys =>
      simp only [lexLt] at h ⊢
      rcases Nat.lt_trichotomy x.val.toNat y.val.toNat with h1 | h1 | h1
      · rw [if_neg (by omega), if_pos h1]
      · rw [if_neg (by omega), if_neg (by omega)]
        rw [if_neg (by omega), if_neg (by omega)] at h
        exact ih ys h
      · rw [if_neg (by omega), if_pos h1] at h
        cases h

lemma lexLt_cotrans : ∀ a b c : List Char,
    lexLt a c = true → lexLt a b = true ∨ lexLt b c = true := by
  intro a
  induction a with
  | nil =>
    intro b c h
    cases c with
    | nil => simp [lexLt] at h
    | cons z zs =>
      cases b with
      | nil => right; simp [lexLt]
      | cons y ys => left; simp [lexLt]
  | cons x xs ih =>
    intro b c h
    cases c with
    | nil => simp [lexLt] at h
    | cons z zs =>
      cases b with
      | nil => right; simp [lexLt]
      | cons y ys =>
        simp only [lexLt] at h ⊢
        rcases Nat.lt_trichotomy x.val.toNat z.val.toNat with h1 | h1 | h1
        · rcases Nat.lt_trichotomy x.val.toNat y.val.toNat with h2 | h2 | h2
          · left; rw [if_pos h2]
          · right; rw [if_pos (by omega)]
          · right; rw [if_pos (by omega)]
        · rw [if_neg (by omega), if_neg (by omega)] at h
          rcases Nat.lt_trichotomy x.val.toNat y.val.toNat with h2 | h2 | h2
          · left; rw [if_pos h2]
          · rcases ih ys zs h with h3 | h3
            · left
              rw [if_neg (by omega), if_neg (by omega)]
              exact h3
            · right
              rw [if_neg (by omega), if_neg (by omega)]
              exact h3
          · right; rw [if_pos (by omega)]
        · rw [if_neg (by omega), if_pos h1] at h
          cases h

lemma strLe_refl (a : String) : strLe a a = true := by
  simp [strLe, strLt, lexLt_irrefl]

lemma strLe_of_strLt {a b : String} (h : strLt a b = true) : strLe a b = true := by
  simp only [strLe, strLt, Bool.not_eq_true'] at *
  exact lexLt_asymm _ _ h

lemma strLe_trans {a b c : String} (hab : strLe a b = true) (hbc : strLe b c = true) :
    strLe a c = true := by
  simp only [strLe, strLt, Bool.not_eq_true'] at hab hbc ⊢
  by_cases h : lexLt c.toList a.toList = true
  · rcases lexLt_cotrans _ b.toList _ h with h1 | h1
    · rw [h1] at hbc
      cases hbc
    · rw [h1] at hab
      cases hab
  · simpa using h

/-- The decimal digit character of `n % 10`. -/
def digitChar (n : Nat) : Char :=
  match n % 10 with
  | 0 => '0' | 1 => '1' | 2 => '2' | 3 => '3' | 4 => '4'
  | 5 => '5' | 6 => '6' | 7 => '7' | 8 => '8' | _ => '9'

/-- Rendering of `"%02d" % n` for `n < 100`, as a character list. -/
def pad2l (n : Nat) : List Char := [digitChar (n / 10), digitChar n]

/-- Rendering of `"%04d" % n` for `n < 10000`, as a character list. -/
def pad4l (n : Nat) : List Char :=
  [digitChar (n / 1000), digitChar (n / 100), digitChar (n / 10), digitChar n]

/-- Rendering of `"%02d" % n` for `n < 100`, as a string. -/
def pad2 (n : Nat) : String := String.mk (pad2l n)

/-- Model of `get_tzinfo_from_dt(dt1, dt2)` (lines 16-25): both datetimes are made
naive and subtracted; the sign comes from the comparison with the zero
timedelta, and the rendered hours/minutes are taken from the normalized
timedelta's `seconds` field (`0 ≤ seconds < 86400`), which silently
discards whole days of difference.  Datetimes are modelled as `Int`
seconds, so `diff.seconds` of the non-negative difference is
`toNat % 86400`. -/
def get_tzinfo_from_dt (t1 t2 : Int) : String :=
  let diff := t2 - t1
  let sgn := if diff < 0 then "-" else "+"
  let dabs := if diff < 0 then -diff else diff
  let secs := dabs.toNat % 86400
  sgn ++ pad2 (secs / 3600) ++ ":" ++ pad2 (secs / 60 % 60)

/-- A parsed datetime as produced by the external `dateutil.parser.parse`:
the naive calendar fields plus the timezone offset (`tzinfo._offset`,
in whole minutes) when the parsed text carried one. -/
structure PyDateTime where
  year : Nat
  month : Nat
  day : Nat
  hour : Nat
  minute : Nat
  second : Nat
  offsetMinutes : Option Int
deriving DecidableEq

/-- The `±HH:MM` suffix that Python's `str(datetime)` appends for an
aware datetime (nothing for a naive one). -/
def offsetChars : Option Int → List Char
  | none => []
  | some m =>
    (if m < 0 then '-' else '+') :: (pad2l (m.natAbs / 60) ++ ':' :: pad2l (m.natAbs % 60))

/-- Python's `str(parsed)` for a datetime without microseconds:
`"YYYY-MM-DD HH:MM:SS"` plus the offset suffix, as a character list. -/
def pyStrChars (dt : PyDateTime) : List Char :=
  pad4l dt.year ++ '-' :: (pad2l dt.month ++ '-' :: (pad2l dt.day ++ ' ' ::
    (pad2l dt.hour ++ ':' :: (pad2l dt.minute ++ ':' ::
      (pad2l dt.second ++ offsetChars dt.offsetMinutes)))))

/-- Split a character list at the LAST occurrence of `c`, returning the
parts before and after it, or `none` when `c` does not occur. -/
def rsplitLast : List Char → Char → Option (List Char × List Char)
  | [], _ => none
  | x :: xs, c =>
    match rsplitLast xs c with
    | some (l, r) => some (x :: l, r)
    | none => if x = c then some ([], xs) else none

/-- Python's `s.rsplit(sep, 1)` for a one-character separator:
`[s]` when `sep` is absent, else the two parts around its last occurrence. -/
def rsplit1 (cs : List Char) (c : Char) : List (List Char) :=
  match rsplitLast cs c with
  | none => [cs]
  | some (l, r) => [l, r]

/-- Leap-year test of the proleptic Gregorian calendar. -/
def isLeap (y : Nat) : Bool := (y % 4 == 0 && y % 100 != 0) || y % 400 == 0

/-- Days in the year before month `m` starts (non-leap year). -/
def monthOffset : Nat → Nat
  | 1 => 0 | 2 => 31 | 3 => 59 | 4 => 90 | 5 => 120 | 6 => 151
  | 7 => 181 | 8 => 212 | 9 => 243 | 10 => 273 | 11 => 304 | _ => 334

/-- Days from 0001-01-01 to the given proleptic-Gregorian date. -/
def daysSinceDay1 (y m d : Nat) : Nat :=
  365 * (y - 1) + (y - 1) / 4 - (y - 1) / 100 + (y - 1) / 400
    + monthOffset m + (if 2 < m && isLeap y then 1 else 0) + (d - 1)

/-- A naive datetime as an instant: seconds from 0001-01-01 00:00:00. -/
def naiveSeconds (dt : PyDateTime) : Int :=
  ((daysSinceDay1 dt.year dt.month dt.day * 86400
    + dt.hour * 3600 + dt.minute * 60 + dt.second : Nat) : Int)

/-- The `tzinfo._offset` of the parsed value as seconds, zero when the
parse produced no offset (`hasattr(parsed.tzinfo, "_offset")` false). -/
def offsetSecs (dt : PyDateTime) : Int :=
  match dt.offsetMinutes with
  | some m => m * 60
  | none => 0

/-- Model of `parse_timestamp_utc(time_str)` (lines 28-44), applied to the datetime
that `dateutil.parser.parse` produced for the input text.  The offset
string is recovered from the `str(...)` rendering: `rsplit("+", 1)`, and
when that found nothing, `rsplit("-", 1)` with prefix `"-"`; the first
component is the parsed value made naive minus the tzinfo offset. -/
def parse_timestamp_utc (parsed : PyDateTime) : Int × String :=
  let s := pyStrChars parsed
  let split0 := rsplit1 s '+'
  let parts := if split0.length = 1 then rsplit1 (split0.getD 0 []) '-' else split0
  let sgn := if split0.length = 1 then "-" else "+"
  let offset_str := if parts.length = 2 then sgn ++ String.mk (parts.getD 1 []) else ""
  (naiveSeconds parsed - offsetSecs parsed, offset_str)

/-- One commit descriptor from a `changesets` page.  `utcSec` and
`localSec` stand for `dateutil.parser.parse` applied to `utctimestamp`
and `timestamp` (naive instants, in seconds), used only to compute the
event's `tzinfo` field. -/
structure Commit where
  utctimestamp : String
  timestamp : String
  raw_author : String
  node : String
  utcSec : Int
  localSec : Int
deriving DecidableEq

/-- The dictionary posted for one qualifying commit (line 100). -/
structure Event where
  system : String
  timestamp : String
  username : String
  data : String
  is_utc : Bool
  tzinfo : String
deriving DecidableEq

/-- Python's `str.split(sep)` for a one-character separator. -/
def splitOnChar : List Char → Char → List (List Char)
  | [], _ => [[]]
  | x :: xs, c =>
    let r := splitOnChar xs c
    if x = c then [] :: r
    else
      match r with
      | [] => [[x]]
      | h :: t => (x :: h) :: t

/-- Whether `sfx` is a suffix of `cs` — Python's `str.endswith`. -/
def endsWithL (cs sfx : List Char) : Bool :=
  sfx.reverse.isPrefixOf cs.reverse

/-- The email extracted from `raw_author` (lines 95-96): the part of
`author.split("<")` at index 1 with every `">"` removed. -/
def authorEmail (c : Commit) : String :=
  String.mk (((splitOnChar c.raw_author.toList '<').getD 1 []).filter (fun ch => ch != '>'))

/-- The two `continue` guards of lines 93-98: the raw author contains a
`"<"` and the extracted email ends with the configured email domain. -/
def passesFilter (domain : String) (c : Commit) : Bool :=
  c.raw_author.toList.contains '<' && endsWithL (authorEmail c).toList domain.toList

/-- The dictionary literal of line 100 for one commit of repository `n`. -/
def toEvent (n : String) (c : Commit) : Event :=
  { system := "bitbucket-commits"
    timestamp := c.utctimestamp
    username := authorEmail c
    data := n
    is_utc := true
    tzinfo := get_tzinfo_from_dt c.utcSec c.localSec }

/-- Lines 90-91: `if timestamp > last_processed_save: last_processed_save = timestamp`. -/
def bestStep (best : String) (c : Commit) : String :=
  if strLt best c.utctimestamp then c.utctimestamp else best

/-- Value of `best_seen` after scanning a whole list of commits. -/
def bestFold (best : String) (cs : List Commit) : String :=
  cs.foldl bestStep best

/-- Result of scanning the commits of one page (the `for` loop of
lines 87-102): the events posted in order, the updated
`last_processed_save`, and whether the loop hit the early `return` of
line 102. -/
structure ScanRes where
  events : List Event
  best : String
  stopped : Bool
deriving DecidableEq

/-- The `for commit in commits["changesets"]` loop of lines 87-102 for a
repository named `n`, with starting checkpoint `chk` (`last_processed`)
and running maximum `best` (`last_processed_save`).  Every commit first
advances `best`; a commit failing either author guard is skipped; a
passing commit posts an event when its timestamp is strictly greater
than `chk`, and otherwise ends the whole traversal. -/
def scanPage (domain n chk : String) : List Commit → String → ScanRes
  | [], best => ⟨[], best, false⟩
  | c :: rest, best =>
    if passesFilter domain c then
      if strLt chk c.utctimestamp then
        let r := scanPage domain n chk rest (bestStep best c)
        ⟨toEvent n c :: r.events, r.best, r.stopped⟩
      else ⟨[], bestStep best c, true⟩
    else scanPage domain n chk rest (bestStep best c)

/-- One JSON body returned by `get_commits`: `none` when the decoded
object has no `"changesets"` field, else the list of commits. -/
abbrev Page := Option (List Commit)

/-- What one call of `_process_repo` did: the events posted in order, the
Python return value (`none` for the implicit `return None` reached
through `break`), and how many pages were fetched. -/
structure RunResult where
  events : List Event
  result : Option String
  fetches : Nat
deriving DecidableEq

/-- The `while True` loop of `_process_repo` (lines 77-105), driven by the
sequence of upstream page responses (most-recent-first pagination; the
`last_commit` cursor only selects the next page and is absorbed into the
page sequence).  A missing `"changesets"` field or an empty list breaks
out of the loop, which falls off the function: Python returns `None`.
`none` overall means the supplied page sequence ran out. -/
def processRepoAux (domain n chk : String) : List Page → String → Option RunResult
  | [], _ => none
  | p :: rest, best =>
    match p with
    | none => some ⟨[], none, 1⟩
    | some cs =>
      if cs.length = 0 then some ⟨[], none, 1⟩
      else
        let r := scanPage domain n chk cs best
        if r.stopped then some ⟨r.events, some r.best, 1⟩
        else if cs.length = 1 then some ⟨r.events, some r.best, 1⟩
        else
          match processRepoAux domain n chk rest r.best with
          | none => none
          | some res => some ⟨r.events ++ res.events, res.result, res.fetches + 1⟩

/-- Model of `_process_repo(name, last_processed)`: `last_processed_save` starts
as the checkpoint the sync began with. -/
def processRepo (domain n chk : String) (pages : List Page) : Option RunResult :=
  processRepoAux domain n chk pages chk

/-- The append-then-maybe-send queue content: `post(data)` first appends
`data` to `post_queue` when it is truthy. -/
def appendData (q : List Event) (data : Option Event) : List Event :=
  match data with
  | some d => q ++ [d]
  | none => q

/-- Model of `post(data)` (lines 132-142).  `resp` is the notification endpoint's
response body.  Returns the queue afterwards and whether a network
delivery call was made: one is made when the queue (after the append)
holds more than 100 events, or is non-empty while `data is None`
(the final flush); the queue is emptied only on the literal `"OK"`. -/
def post (q : List Event) (data : Option Event) (resp : String) : List Event × Bool :=
  let q2 := appendData q data
  if 100 < q2.length ∨ (0 < q2.length ∧ data = none) then
    (if resp = "OK" then [] else q2, true)
  else (q2, false)

/-- Repeated `post (some e)` calls, as issued while scanning commits:
final queue and the number of delivery calls made. -/
def enqueueAll (resp : String) : List Event → List Event → List Event × Nat
  | [], q => (q, 0)
  | e :: rest, q =>
    let r := post q (some e) resp
    let r2 := enqueueAll resp rest r.fst
    (r2.fst, (if r.snd then 1 else 0) + r2.snd)

/-- The Redis checkpoint store: later writes shadow earlier ones.  The
stored value is `none` when `set` was handed Python `None`. -/
abbrev Store := List (String × Option String)

/-- Model of `redis.get(key)`. -/
def storeGet (st : Store) (k : String) : Option String :=
  match st.lookup k with
  | some v => v
  | none => none

/-- Model of `redis.set(key, value)`. -/
def storeSet (st : Store) (k : String) (v : Option String) : Store :=
  (k, v) :: st

/-- The key `"bitbucket-%s-" % name + "pushed_at"` (lines 118-119). -/
def repoKey (name : String) : String :=
  "bitbucket-" ++ name ++ "-pushed_at"

/-- Lines 119-121: the stored checkpoint, with any falsy value (absent
key or empty string) replaced by the epoch timestamp. -/
def checkpointOf (st : Store) (key : String) : String :=
  match storeGet st key with
  | some v => if v = "" then "1970-01-01T00:00:00" else v
  | none => "1970-01-01T00:00:00"

/-- One repository descriptor from the listing call, together with the
page responses the history API would serve for it during this run. -/
structure Repo where
  slug : Option String
  last_updated : Option String
  pages : List Page
deriving DecidableEq

/-- The externally visible side effects of `process` on the checkpoint
store and the batcher: each qualifying repository contributes one
`redis.set` (line 126) followed by one `post_finished()` (line 127). -/
inductive SyncAction where
  | write (k : String) (v : Option String)
  | finalFlush
deriving DecidableEq

/-- Model of `process` (lines 107-127) over the repository listing.  A repository
with a falsy slug is skipped; one whose stored checkpoint is not below
its `last_updated` (a missing `last_updated` compares below every
string in Python 2) is skipped; otherwise `_process_repo` runs and its
return value — timestamp or `None` — is written back verbatim, then the
final flush is triggered.  `none` overall means some repository's
modelled page sequence ran out. -/
def processRun (domain : String) : List Repo → Store → Option (Store × List SyncAction)
  | [], st => some (st, [])
  | r :: rest, st =>
    match r.slug with
    | none => processRun domain rest st
    | some name =>
      if name = "" then processRun domain rest st
      else
        let key := repoKey name
        let chk := checkpointOf st key
        match r.last_updated with
        | none => processRun domain rest st
        | some lc =>
          if strLt chk lc then
            match processRepo domain name chk r.pages with
            | none => none
            | some res =>
              match processRun domain rest (storeSet st key res.result) with
              | none => none
              | some (st2, tr) =>
                some (st2, SyncAction.write key res.result :: SyncAction.finalFlush :: tr)
          else processRun domain rest st

lemma scanPage_skip {domain : String} {c : Commit} (n chk : String) (l : List Commit)
    (best : String) (h : passesFilter domain c = false) :
    scanPage domain n chk (c :: l) best = scanPage domain n chk l (bestStep best c) := by
  simp [scanPage, h]

lemma scanPage_emit {domain chk : String} {c : Commit} (n : String) (l : List Commit)
    (best : String) (hp : passesFilter domain c = true) (hlt : strLt chk c.utctimestamp = true) :
    scanPage domain n chk (c :: l) best =
      ⟨toEvent n c :: (scanPage domain n chk l (bestStep best c)).events,
       (scanPage domain n chk l (bestStep best c)).best,
       (scanPage domain n chk l (bestStep best c)).stopped⟩ := by
  simp [scanPage, hp, hlt]

lemma strLe_bestStep (best : String) (c : Commit) : strLe best (bestStep best c) = true := by
  unfold bestStep
  by_cases h : strLt best c.utctimestamp = true
  · rw [if_pos h]
    exact strLe_of_strLt h
  · rw [if_neg h]
    exact strLe_refl best

lemma scanPage_best_le (domain n chk : String) :
    ∀ (cs : List Commit) (best : String),
      strLe best (scanPage domain n chk cs best).best = true := by
  intro cs
  induction cs with
  | nil =>
    intro best
    simp [scanPage, strLe_refl]
  | cons c l ih =>
    intro best
    by_cases hp : passesFilter domain c = true
    · by_cases hlt : strLt chk c.utctimestamp = true
      · rw [scanPage_emit n l best hp hlt]
        exact strLe_trans (strLe_bestStep best c) (ih (bestStep best c))
      · have hhalt : scanPage domain n chk (c :: l) best = ⟨[], bestStep best c, true⟩ := by
          simp [scanPage, hp, hlt]
        rw [hhalt]
        exact strLe_bestStep best c
    · rw [scanPage_skip n chk l best (by simpa using hp)]
      exact strLe_trans (strLe_bestStep best c) (ih (bestStep best c))

lemma processRepoAux_result_bound (domain n chk : String) :
    ∀ (pages : List Page) (best : String) (res : RunResult),
      processRepoAux domain n chk pages best = some res →
      res.result = none ∨ ∃ b, res.result = some b ∧ strLe best b = true := by
  intro pages
  induction pages with
  | nil =>
    intro best res h
    simp [processRepoAux] at h
  | cons p rest ih =>
    intro best res h
    cases p with
    | none =>
      simp only [processRepoAux] at h
      cases h
      left; rfl
    | some cs =>
      simp only [processRepoAux] at h
      by_cases h0 : cs.length = 0
      · rw [if_pos h0] at h
        cases h
        left; rfl
      · rw [if_neg h0] at h
        by_cases hs : (scanPage domain n chk cs best).stopped = true
        · rw [if_pos hs] at h
          cases h
          right
          exact ⟨_, rfl, scanPage_best_le domain n chk cs best⟩
        · rw [if_neg hs] at h
          by_cases h1 : cs.length = 1
          · rw [if_pos h1] at h
            cases h
            right
            exact ⟨_, rfl, scanPage_best_le domain n chk cs best⟩
          · rw [if_neg h1] at h
            cases hrec : processRepoAux domain n chk rest (scanPage domain n chk cs best).best with
            | none => rw [hrec] at h; cases h
            | some res2 =>
              rw [hrec] at h
              cases h
              rcases ih _ _ hrec with h2 | ⟨b, hb, hle⟩
              · left; exact h2
              · right
                exact ⟨b, hb,
                  strLe_trans (scanPage_best_le domain n chk cs best) hle⟩

lemma processRun_cons_step (domain name lc : String) (pages : List Page) (rest : List Repo)
    (st : Store) (res : RunResult) (st2 : Store) (tr : List SyncAction)
    (hname : name ≠ "")
    (hlt : strLt (checkpointOf st (repoKey name)) lc = true)
    (hrepo : processRepo domain name (checkpointOf st (repoKey name)) pages = some res)
    (hrest : processRun domain rest (storeSet st (repoKey name) res.result) = some (st2, tr)) :
    processRun domain (⟨some name, some lc, pages⟩ :: rest) st =
      some (st2, SyncAction.write (repoKey name) res.result :: SyncAction.finalFlush :: tr) := by
  simp only [processRun]
  rw [if_neg hname, if_pos hlt, hrepo]
  simp [hrest]

lemma scanPage_stop (domain n chk : String) (c : Commit) (rest : List Commit)
    (hc : passesFilter domain c = true) (hstop : strLt chk c.utctimestamp = false) :
    ∀ (pre : List Commit) (best : String),
      (∀ x ∈ pre, passesFilter domain x = true → strLt chk x.utctimestamp = true) →
      scanPage domain n chk (pre ++ c :: rest) best =
        ⟨(pre.filter (fun x => passesFilter domain x && strLt chk x.utctimestamp)).map (toEvent n),
         bestFold best (pre ++ [c]), true⟩ := by
  intro pre
  induction pre with
  | nil =>
    intro best _
    have hhalt : scanPage domain n chk (c :: rest) best = ⟨[], bestStep best c, true⟩ := by
      simp [scanPage, hc, hstop]
    simpa [bestFold] using hhalt
  | cons x xs ih =>
    intro best hpre
    have htail : ∀ y ∈ xs, passesFilter domain y = true → strLt chk y.utctimestamp = true :=
      fun y hy => hpre y (List.mem_cons_of_mem x hy)
    by_cases hpx : passesFilter domain x = true
    · have hlt := hpre x (List.mem_cons_self x xs) hpx
      rw [List.cons_append, scanPage_emit n _ best hpx hlt, ih (bestStep best x) htail]
      simp [List.filter_cons, hpx, hlt, bestFold]
    · rw [List.cons_append, scanPage_skip n chk _ best (by simpa using hpx),
        ih (bestStep best x) htail]
      simp [List.filter_cons, hpx, bestFold]

lemma enqueueAll_no_call (resp : String) :
    ∀ (evs q : List Event), q.length + evs.length ≤ 100 →
      enqueueAll resp evs q = (q ++ evs, 0) := by
  intro evs
  induction evs with
  | nil =>
    intro q _
    simp [enqueueAll]
  | cons e rest ih =>
    intro q h
    simp only [List.length_cons] at h
    have hpost : post q (some e) resp = (q ++ [e], false) := by
      simp [post, appendData]
      omega
    simp only [enqueueAll, hpost]
    rw [ih (q ++ [e]) (by simp only [List.length_append, List.length_singleton]; omega)]
    simp

lemma enqueueAll_append (resp : String) :
    ∀ (l1 l2 q : List Event),
      enqueueAll resp (l1 ++ l2) q =
        ((enqueueAll resp l2 (enqueueAll resp l1 q).fst).fst,
         (enqueueAll resp l1 q).snd + (enqueueAll resp l2 (enqueueAll resp l1 q).fst).snd) := by
  intro l1
  induction l1 with
  | nil =>
    intro l2 q
    simp [enqueueAll]
  | cons e rest ih =>
    intro l2 q
    simp only [List.cons_append, enqueueAll, List.append_eq]
    rw [ih l2 (post q (some e) resp).fst]
    simp [Nat.add_assoc]

lemma digitChar_ne_plus (n : Nat) : digitChar n ≠ '+' := by
  unfold digitChar
  have h : n % 10 < 10 := Nat.mod_lt _ (by omega)
  revert h
  generalize n % 10 = k
  intro h
  interval_cases k <;> decide

lemma digitChar_ne_minus (n : Nat) : digitChar n ≠ '-' := by
  unfold digitChar
  have h : n % 10 < 10 := Nat.mod_lt _ (by omega)
  revert h
  generalize n % 10 = k
  intro h
  interval_cases k <;> decide

lemma plus_notin_pad2l (n : Nat) : '+' ∉ pad2l n := by
  intro h
  rcases List.mem_cons.mp h with h | h
  · exact digitChar_ne_plus _ h.symm
  · rcases List.mem_cons.mp h with h | h
    · exact digitChar_ne_plus _ h.symm
    · cases h

lemma minus_notin_pad2l (n : Nat) : '-' ∉ pad2l n := by
  intro h
  rcases List.mem_cons.mp h with h | h
  · exact digitChar_ne_minus _ h.symm
  · rcases List.mem_cons.mp h with h | h
    · exact digitChar_ne_minus _ h.symm
    · cases h

lemma plus_notin_pad4l (n : Nat) : '+' ∉ pad4l n := by
  intro h
  rcases List.mem_cons.mp h with h | h
  · exact digitChar_ne_plus _ h.symm
  · rcases List.mem_cons.mp h with h | h
    · exact digitChar_ne_plus _ h.symm
    · rcases List.mem_cons.mp h with h | h
      · exact digitChar_ne_plus _ h.symm
      · rcases List.mem_cons.mp h with h | h
        · exact digitChar_ne_plus _ h.symm
        · cases h

lemma plus_notin_hm (a b : Nat) : '+' ∉ pad2l a ++ ':' :: pad2l b := by
  intro h
  rcases List.mem_append.mp h with h | h
  · exact plus_notin_pad2l a h
  · rcases List.mem_cons.mp h with h | h
    · exact absurd h (by decide)
    · exact plus_notin_pad2l b h

lemma minus_notin_hm (a b : Nat) : '-' ∉ pad2l a ++ ':' :: pad2l b := by
  intro h
  rcases List.mem_append.mp h with h | h
  · exact minus_notin_pad2l a h
  · rcases List.mem_cons.mp h with h | h
    · exact absurd h (by decide)
    · exact minus_notin_pad2l b h

lemma rsplitLast_none {cs : List Char} {c : Char} (h : c ∉ cs) : rsplitLast cs c = none := by
  induction cs with
  | nil => rfl
  | cons x xs ih =>
    have h1 : rsplitLast xs c = none := ih (fun hx => h (List.mem_cons_of_mem x hx))
    have h2 : ¬ x = c := fun hx => h (hx ▸ List.mem_cons_self x xs)
    simp [rsplitLast, h1, h2]

lemma rsplitLast_append {l r : List Char} {c : Char} {a b : List Char}
    (h : rsplitLast r c = some (a, b)) :
    rsplitLast (l ++ r) c = some (l ++ a, b) := by
  induction l with
  | nil => simpa using h
  | cons x xs ih => simp [rsplitLast, ih]

lemma rsplitLast_cons_of_some {x : Char} {r : List Char} {c : Char} {a b : List Char}
    (h : rsplitLast r c = some (a, b)) :
    rsplitLast (x :: r) c = some (x :: a, b) := by
  simp [rsplitLast, h]

lemma rsplitLast_self {c : Char} {r : List Char} (h : c ∉ r) :
    rsplitLast (c :: r) c = some ([], r) := by
  simp [rsplitLast, rsplitLast_none h]

lemma plus_notin_offsetChars_neg {m : Int} (hm : m < 0) : '+' ∉ offsetChars (some m) := by
  simp only [offsetChars, if_pos hm]
  intro h
  rcases List.mem_cons.mp h with h | h
  · exact absurd h (by decide)
  · exact plus_notin_hm _ _ h

lemma plus_notin_pyStr (dt : PyDateTime)
    (h : '+' ∉ offsetChars dt.offsetMinutes) : '+' ∉ pyStrChars dt := by
  intro hmem
  simp only [pyStrChars] at hmem
  rcases List.mem_append.mp hmem with h1 | h1
  · exact plus_notin_pad4l _ h1
  · rcases List.mem_cons.mp h1 with h1 | h1
    · exact absurd h1 (by decide)
    · rcases List.mem_append.mp h1 with h2 | h2
      · exact plus_notin_pad2l _ h2
      · rcases List.mem_cons.mp h2 with h2 | h2
        · exact absurd h2 (by decide)
        · rcases List.mem_append.mp h2 with h3 | h3
          · exact plus_notin_pad2l _ h3
          · rcases List.mem_cons.mp h3 with h3 | h3
            · exact absurd h3 (by decide)
            · rcases List.mem_append.mp h3 with h4 | h4
              · exact plus_notin_pad2l _ h4
              · rcases List.mem_cons.mp h4 with h4 | h4
                · exact absurd h4 (by decide)
                · rcases List.mem_append.mp h4 with h5 | h5
                  · exact plus_notin_pad2l _ h5
                  · rcases List.mem_cons.mp h5 with h5 | h5
                    · exact absurd h5 (by decide)
                    · rcases List.mem_append.mp h5 with h6 | h6
                      · exact plus_notin_pad2l _ h6
                      · exact h h6

/-- A commit newer than the sample checkpoints, by a domain-matching author. -/
def sampleCommitNew : Commit :=
  ⟨"2024-03-01T00:00:00", "2024-03-01T02:00:00", "A <a@example.com>", "n1", 0, 7200⟩

/-- A commit exactly at the stale sample checkpoint, by a domain-matching author. -/
def sampleCommitOld : Commit :=
  ⟨"2024-02-01T00:00:00", "2024-02-01T02:00:00", "A <a@example.com>", "n2", 0, 7200⟩

/-- A commit whose raw author string carries no angle-bracket email. -/
def sampleCommitNoEmail : Commit :=
  ⟨"2024-02-15T00:00:00", "2024-02-15T00:00:00", "No Bracket", "n3", 0, 0⟩

/-- A concrete outgoing event used in queue checks. -/
def sampleEvent : Event :=
  ⟨"bitbucket-commits", "2024-03-01T00:00:00", "a@example.com", "repo", true, "+00:00"⟩

/-- C9: `get_tzinfo_from_dt` depends only on the sub-day part of the
difference of its arguments: for `dt1 ≤ dt2`, adding 24 hours to `dt2`
leaves the rendered offset unchanged, so whole days of difference are
silently discarded. -/
theorem tz_offset_discards_days (t1 t2 : Int) (h : t1 ≤ t2) :
    get_tzinfo_from_dt t1 (t2 + 86400) = get_tzinfo_from_dt t1 t2 := by
  simp only [get_tzinfo_from_dt]
  have h1 : ¬ (t2 - t1 < 0) := by omega
  have h2 : ¬ (t2 + 86400 - t1 < 0) := by omega
  simp only [if_neg h1, if_neg h2]
  have h3 : (t2 + 86400 - t1).toNat = (t2 - t1).toNat + 86400 := by omega
  rw [h3, Nat.add_mod_right]

/-- Witness for C9 at `dt1 = 0`, `dt2 = 3600`: a 25-hour difference
renders the same as a 1-hour difference. -/
theorem tz_offset_discards_days_witness :
    (0 : Int) ≤ 3600 ∧ get_tzinfo_from_dt 0 (3600 + 86400) = get_tzinfo_from_dt 0 3600 :=
  ⟨by decide, tz_offset_discards_days 0 3600 (by decide)⟩

/-- C5: an enqueue (a `post` call with data) makes a delivery call exactly
when the queue length after the append exceeds 100; enqueuing 100 events
onto an empty queue makes no delivery call, while the 101st enqueue makes
exactly one. -/
theorem flush_threshold (q evs : List Event) (e : Event) (resp : String)
    (h : evs.length = 100) :
    ((post q (some e) resp).snd = decide (100 < q.length + 1))
    ∧ enqueueAll resp evs [] = (evs, 0)
    ∧ (enqueueAll resp (evs ++ [e]) []).snd = 1 := by
  have h2 : enqueueAll resp evs [] = (evs, 0) := by
    simpa using enqueueAll_no_call resp evs [] (by simp [h])
  refine ⟨?_, h2, ?_⟩
  · by_cases hc : 100 < q.length + 1
    · simp [post, appendData, hc]
    · simp [post, appendData, hc]
  · rw [enqueueAll_append, h2]
    have hpost : (post evs (some e) resp).snd = true := by
      simp [post, appendData, h]
    simp [enqueueAll, hpost]

/-- Witness for C5: 100 copies of a concrete event, then one more. -/
theorem flush_threshold_witness :
    (List.replicate 100 sampleEvent).length = 100 ∧
      (((post ([] : List Event) (some sampleEvent) "OK").snd =
          decide (100 < ([] : List Event).length + 1))
      ∧ enqueueAll "OK" (List.replicate 100 sampleEvent) [] = (List.replicate 100 sampleEvent, 0)
      ∧ (enqueueAll "OK" (List.replicate 100 sampleEvent ++ [sampleEvent]) []).snd = 1) :=
  ⟨by simp, flush_threshold [] (List.replicate 100 sampleEvent) sampleEvent "OK" (by simp)⟩

/-- C6: after a delivery call, the queue is cleared exactly when the
response body is the literal `"OK"`; on any other response the queue is
exactly the appended queue that was sent, in order. -/
theorem delivery_ack (q : List Event) (data : Option Event) (resp : String)
    (hcall : (post q data resp).snd = true) :
    ((post q data resp).fst = [] ↔ resp = "OK")
    ∧ (resp ≠ "OK" → (post q data resp).fst = appendData q data) := by
  by_cases hc : 100 < (appendData q data).length ∨ (0 < (appendData q data).length ∧ data = none)
  · have hlen : 0 < (appendData q data).length := by
      rcases hc with hc | hc
      · omega
      · exact hc.1
    have hne : appendData q data ≠ [] := by
      intro h0
      rw [h0] at hlen
      simp at hlen
    by_cases hr : resp = "OK"
    · simp [post, hc, hr]
    · simp [post, hc, hr, hne]
  · simp [post, hc] at hcall

/-- Witness for C6: a final flush of a one-event queue answered `"NO"`
keeps the queue. -/
theorem delivery_ack_witness :
    (post [sampleEvent] none "NO").snd = true ∧
      (((post [sampleEvent] none "NO").fst = [] ↔ ("NO" : String) = "OK")
      ∧ (("NO" : String) ≠ "OK" → (post [sampleEvent] none "NO").fst = appendData [sampleEvent] none)) :=
  ⟨by decide, delivery_ack [sampleEvent] none "NO" (by decide)⟩

/-- C4: a commit failing the domain filter (no `"<"` in the raw author, or
an email not ending in the configured domain) contributes no event and no
stop: scanning it just advances `best_seen` to its timestamp when that is
the lexicographically largest seen so far. -/
theorem domain_filter_skips (domain n chk : String) (c : Commit) (l : List Commit)
    (best : String) (h : passesFilter domain c = false) :
    scanPage domain n chk (c :: l) best =
      scanPage domain n chk l
        (if strLt best c.utctimestamp then c.utctimestamp else best) := by
  rw [scanPage_skip n chk l best h]
  rfl

/-- Witness for C4 on a commit with no angle-bracket author. -/
theorem domain_filter_skips_witness :
    passesFilter "example.com" sampleCommitNoEmail = false ∧
      scanPage "example.com" "repo" "1970-01-01T00:00:00" [sampleCommitNoEmail] "1970-01-01T00:00:00" =
        scanPage "example.com" "repo" "1970-01-01T00:00:00" []
          (if strLt "1970-01-01T00:00:00" sampleCommitNoEmail.utctimestamp
            then sampleCommitNoEmail.utctimestamp else "1970-01-01T00:00:00") :=
  ⟨by decide,
    domain_filter_skips "example.com" "repo" "1970-01-01T00:00:00" sampleCommitNoEmail []
      "1970-01-01T00:00:00" (by decide)⟩

/-- C8: a fetched page holding exactly one commit always ends the
per-repository traversal: whatever the scan of that single commit did,
`_process_repo` returns the updated `best_seen` after this single fetch,
never touching the remaining page responses. -/
theorem single_commit_page_stops (domain n chk best : String) (c : Commit) (more : List Page) :
    processRepoAux domain n chk (some [c] :: more) best =
      some ⟨(scanPage domain n chk [c] best).events,
            some (scanPage domain n chk [c] best).best, 1⟩ := by
  simp only [processRepoAux]
  by_cases hs : (scanPage domain n chk [c] best).stopped = true
  · simp [hs]
  · simp [hs]

/-- C2 (amended): a fetched page with no `"changesets"` field, or with an
empty changeset list, ends the per-repository sync at once — but through
`break` and the implicit `return None`: the function returns the null
value, not `best_seen`; in particular an empty or malformed first page
yields `None`, not the starting checkpoint. -/
theorem empty_page_returns_null (domain n chk best : String) (p : Page) (rest : List Page)
    (h : p = none ∨ p = some []) :
    processRepoAux domain n chk (p :: rest) best = some ⟨[], none, 1⟩ := by
  rcases h with h | h <;> subst h <;> rfl

/-- Witness for C2 on a response without a `"changesets"` field. -/
theorem empty_page_returns_null_witness :
    ((none : Page) = none ∨ (none : Page) = some []) ∧
      processRepoAux "example.com" "repo" "2024-02-01T00:00:00" [none] "2024-02-01T00:00:00" =
        some ⟨[], none, 1⟩ :=
  ⟨Or.inl rfl,
    empty_page_returns_null "example.com" "repo" "2024-02-01T00:00:00" "2024-02-01T00:00:00"
      none [] (Or.inl rfl)⟩

/-- C2 counterexample: with an empty first page, `_process_repo` does not
return the starting checkpoint — its Python return value is `None`. -/
theorem empty_page_cex :
    (processRepo "example.com" "repo" "2024-02-01T00:00:00" [some []]).map RunResult.result ≠
      some (some "2024-02-01T00:00:00") := by
  decide

/-- C3: while scanning a page whose earlier filter-passing commits are all
strictly newer than the starting checkpoint, the first filter-passing
commit at or before the checkpoint stops the traversal at once:
`_process_repo` returns after this single fetch; exactly the
filter-passing commits with timestamp strictly greater than the
checkpoint produced events (in page order), and the returned `best_seen`
was updated from every scanned commit including the stopping one. -/
theorem emission_boundary (domain n chk : String) (pre : List Commit) (c : Commit)
    (rest : List Commit) (more : List Page)
    (hpre : ∀ x ∈ pre, passesFilter domain x = true → strLt chk x.utctimestamp = true)
    (hc : passesFilter domain c = true)
    (hstop : strLt chk c.utctimestamp = false) :
    processRepoAux domain n chk (some (pre ++ c :: rest) :: more) chk =
      some ⟨(pre.filter (fun x => passesFilter domain x && strLt chk x.utctimestamp)).map (toEvent n),
            some (bestFold chk (pre ++ [c])), 1⟩ := by
  have hscan := scanPage_stop domain n chk c rest hc hstop pre chk hpre
  have hlen : ¬ (pre ++ c :: rest).length = 0 := by simp
  simp only [processRepoAux]
  rw [if_neg hlen, hscan]
  simp

/-- Witness for C3 on the spec's stale-checkpoint scenario: a newer commit
then one exactly at the checkpoint. -/
theorem emission_boundary_witness :
    (∀ x ∈ [sampleCommitNew], passesFilter "example.com" x = true →
        strLt "2024-02-01T00:00:00" x.utctimestamp = true) ∧
    passesFilter "example.com" sampleCommitOld = true ∧
    strLt "2024-02-01T00:00:00" sampleCommitOld.utctimestamp = false ∧
    processRepoAux "example.com" "repo" "2024-02-01T00:00:00"
        (some ([sampleCommitNew] ++ sampleCommitOld :: []) :: []) "2024-02-01T00:00:00" =
      some ⟨(([sampleCommitNew]).filter
              (fun x => passesFilter "example.com" x && strLt "2024-02-01T00:00:00" x.utctimestamp)).map
              (toEvent "repo"),
            some (bestFold "2024-02-01T00:00:00" ([sampleCommitNew] ++ [sampleCommitOld])), 1⟩ :=
  ⟨by decide, by decide, by decide,
    emission_boundary "example.com" "repo" "2024-02-01T00:00:00" [sampleCommitNew]
      sampleCommitOld [] [] (by decide) (by decide) (by decide)⟩

/-- C10: a repository that passes both skip checks (a truthy slug, and a
stored checkpoint lexicographically below its `last_updated`) contributes
exactly one checkpoint-store write — of whatever `_process_repo`
returned, the null value included — immediately followed by one final
flush call, before the remaining repositories are handled. -/
theorem process_write_then_flush (domain name lc : String) (pages : List Page)
    (rest : List Repo) (st : Store) (res : RunResult) (st2 : Store) (tr : List SyncAction)
    (hname : name ≠ "")
    (hlt : strLt (checkpointOf st (repoKey name)) lc = true)
    (hrepo : processRepo domain name (checkpointOf st (repoKey name)) pages = some res)
    (hrest : processRun domain rest (storeSet st (repoKey name) res.result) = some (st2, tr)) :
    processRun domain (⟨some name, some lc, pages⟩ :: rest) st =
      some (st2, SyncAction.write (repoKey name) res.result :: SyncAction.finalFlush :: tr) :=
  processRun_cons_step domain name lc pages rest st res st2 tr hname hlt hrepo hrest

/-- Witness for C10 on a repository whose first page is malformed, so the
value written is the null one. -/
theorem process_write_then_flush_witness :
    ("r" : String) ≠ "" ∧
    strLt (checkpointOf [] (repoKey "r")) "2024-03-01T00:00:00" = true ∧
    processRepo "example.com" "r" (checkpointOf [] (repoKey "r")) [none] =
      some ⟨[], none, 1⟩ ∧
    processRun "example.com" [⟨some "r", some "2024-03-01T00:00:00", [none]⟩] [] =
      some ((repoKey "r", (none : Option String)) :: [],
        [SyncAction.write (repoKey "r") none, SyncAction.finalFlush]) :=
  ⟨by decide, by decide, by decide,
    process_write_then_flush "example.com" "r" "2024-03-01T00:00:00" [none] [] []
      ⟨[], none, 1⟩ ((repoKey "r", none) :: []) [] (by decide) (by decide) (by decide) rfl⟩

/-- C1 (amended): for a repository processed in a run, the value stored
after its sync is either a timestamp lexicographically at or above the
checkpoint read at the start of its sync (whenever `_process_repo`
returned through one of its `return` statements), or the null value
(when the traversal ended on a missing or empty changeset page) — in the
latter case the claimed lexicographic monotonicity does not hold. -/
theorem checkpoint_write_bounded (domain name lc : String) (pages : List Page)
    (rest : List Repo) (st : Store) (res : RunResult) (st2 : Store) (tr : List SyncAction)
    (hname : name ≠ "")
    (hlt : strLt (checkpointOf st (repoKey name)) lc = true)
    (hrepo : processRepo domain name (checkpointOf st (repoKey name)) pages = some res)
    (hrest : processRun domain rest (storeSet st (repoKey name) res.result) = some (st2, tr)) :
    processRun domain (⟨some name, some lc, pages⟩ :: rest) st =
      some (st2, SyncAction.write (repoKey name) res.result :: SyncAction.finalFlush :: tr)
    ∧ (res.result = none ∨
        ∃ b, res.result = some b ∧ strLe (checkpointOf st (repoKey name)) b = true) :=
  ⟨processRun_cons_step domain name lc pages rest st res st2 tr hname hlt hrepo hrest,
    processRepoAux_result_bound domain name (checkpointOf st (repoKey name)) pages
      (checkpointOf st (repoKey name)) res hrepo⟩

/-- Witness for C1 on a run returning through the single-commit-page stop:
the written timestamp is at or above the starting epoch checkpoint. -/
theorem checkpoint_write_bounded_witness :
    ("s" : String) ≠ "" ∧
    strLt (checkpointOf [] (repoKey "s")) "2024-03-01T00:00:01" = true ∧
    processRepo "example.com" "s" (checkpointOf [] (repoKey "s")) [some [sampleCommitNew]] =
      some ⟨[toEvent "s" sampleCommitNew], some "2024-03-01T00:00:00", 1⟩ ∧
    (processRun "example.com" [⟨some "s", some "2024-03-01T00:00:01", [some [sampleCommitNew]]⟩] [] =
        some ((repoKey "s", some "2024-03-01T00:00:00") :: [],
          [SyncAction.write (repoKey "s") (some "2024-03-01T00:00:00"), SyncAction.finalFlush])
      ∧ ((some "2024-03-01T00:00:00" : Option String) = none ∨
          ∃ b, (some "2024-03-01T00:00:00" : Option String) = some b ∧
            strLe (checkpointOf [] (repoKey "s")) b = true)) :=
  ⟨by decide, by decide, by decide,
    checkpoint_write_bounded "example.com" "s" "2024-03-01T00:00:01" [some [sampleCommitNew]]
      [] [] ⟨[toEvent "s" sampleCommitNew], some "2024-03-01T00:00:00", 1⟩
      ((repoKey "s", some "2024-03-01T00:00:00") :: []) []
      (by decide) (by decide) (by decide) rfl⟩

/-- The checkpoint store before the C1 counterexample run: repository
`"r"` was last synchronized at 2024-02-01. -/
def cexStore : Store := [(repoKey "r", some "2024-02-01T00:00:00")]

/-- C1 counterexample: a repository with a stored checkpoint and something
new upstream whose first response is malformed.  The run writes the null
value over the checkpoint; reading the checkpoint back yields the epoch,
strictly below the value stored before the run, so the stored checkpoint
did not stay lexicographically non-decreasing. -/
theorem checkpoint_monotone_cex :
    processRun "example.com" [⟨some "r", some "2024-03-01T00:00:00", [none]⟩] cexStore =
      some ((repoKey "r", (none : Option String)) :: cexStore,
        [SyncAction.write (repoKey "r") none, SyncAction.finalFlush])
    ∧ storeGet ((repoKey "r", (none : Option String)) :: cexStore) (repoKey "r") = none
    ∧ strLe (checkpointOf cexStore (repoKey "r"))
        (checkpointOf ((repoKey "r", (none : Option String)) :: cexStore) (repoKey "r")) = false :=
  ⟨by decide, by decide, by decide⟩

lemma minus_notin_timeTail (d h mi s : Nat) :
    '-' ∉ pad2l d ++ ' ' :: (pad2l h ++ ':' :: (pad2l mi ++ ':' :: (pad2l s ++ ([] : List Char)))) := by
  intro hmem
  rcases List.mem_append.mp hmem with h1 | h1
  · exact minus_notin_pad2l _ h1
  · rcases List.mem_cons.mp h1 with h1 | h1
    · exact absurd h1 (by decide)
    · rcases List.mem_append.mp h1 with h2 | h2
      · exact minus_notin_pad2l _ h2
      · rcases List.mem_cons.mp h2 with h2 | h2
        · exact absurd h2 (by decide)
        · rcases List.mem_append.mp h2 with h3 | h3
          · exact minus_notin_pad2l _ h3
          · rcases List.mem_cons.mp h3 with h3 | h3
            · exact absurd h3 (by decide)
            · rcases List.mem_append.mp h3 with h4 | h4
              · exact minus_notin_pad2l _ h4
              · simp at h4

lemma parse_snd_of_plus_split {dt : PyDateTime} {L B : List Char}
    (h : rsplitLast (pyStrChars dt) '+' = some (L, B)) :
    (parse_timestamp_utc dt).snd = "+" ++ String.mk B := by
  simp [parse_timestamp_utc, rsplit1, h]

lemma parse_snd_of_minus_split {dt : PyDateTime} {L B : List Char}
    (hplus : rsplitLast (pyStrChars dt) '+' = none)
    (h : rsplitLast (pyStrChars dt) '-' = some (L, B)) :
    (parse_timestamp_utc dt).snd = "-" ++ String.mk B := by
  simp [parse_timestamp_utc, rsplit1, hplus, h]

lemma parse_offset_some_nonneg (dt : PyDateTime) {m : Int}
    (hm : dt.offsetMinutes = some m) (hpos : ¬ m < 0) :
    (parse_timestamp_utc dt).snd = String.mk (offsetChars dt.offsetMinutes) := by
  have hoc : offsetChars dt.offsetMinutes =
      '+' :: (pad2l (m.natAbs / 60) ++ ':' :: pad2l (m.natAbs % 60)) := by
    rw [hm]
    simp [offsetChars, hpos]
  have h1 := rsplitLast_self (c := '+')
    (r := pad2l (m.natAbs / 60) ++ ':' :: pad2l (m.natAbs % 60)) (plus_notin_hm _ _)
  have h2 := rsplitLast_append (l := pad2l dt.second) h1
  have h3 := rsplitLast_cons_of_some (x := ':') h2
  have h4 := rsplitLast_append (l := pad2l dt.minute) h3
  have h5 := rsplitLast_cons_of_some (x := ':') h4
  have h6 := rsplitLast_append (l := pad2l dt.hour) h5
  have h7 := rsplitLast_cons_of_some (x := ' ') h6
  have h8 := rsplitLast_append (l := pad2l dt.day) h7
  have h9 := rsplitLast_cons_of_some (x := '-') h8
  have h10 := rsplitLast_append (l := pad2l dt.month) h9
  have h11 := rsplitLast_cons_of_some (x := '-') h10
  have h12 := rsplitLast_append (l := pad4l dt.year) h11
  have hs : rsplitLast (pyStrChars dt) '+' =
      some (pad4l dt.year ++ '-' :: (pad2l dt.month ++ '-' :: (pad2l dt.day ++ ' ' ::
          (pad2l dt.hour ++ ':' :: (pad2l dt.minute ++ ':' :: (pad2l dt.second ++ []))))),
        pad2l (m.natAbs / 60) ++ ':' :: pad2l (m.natAbs % 60)) := by
    unfold pyStrChars
    rw [hoc]
    exact h12
  rw [parse_snd_of_plus_split hs, hoc]
  rfl

lemma parse_offset_some_neg (dt : PyDateTime) {m : Int}
    (hm : dt.offsetMinutes = some m) (hneg : m < 0) :
    (parse_timestamp_utc dt).snd = String.mk (offsetChars dt.offsetMinutes) := by
  have hoc : offsetChars dt.offsetMinutes =
      '-' :: (pad2l (m.natAbs / 60) ++ ':' :: pad2l (m.natAbs % 60)) := by
    rw [hm]
    simp [offsetChars, hneg]
  have hplus : rsplitLast (pyStrChars dt) '+' = none :=
    rsplitLast_none (plus_notin_pyStr dt (by rw [hm]; exact plus_notin_offsetChars_neg hneg))
  have h1 := rsplitLast_self (c := '-')
    (r := pad2l (m.natAbs / 60) ++ ':' :: pad2l (m.natAbs % 60)) (minus_notin_hm _ _)
  have h2 := rsplitLast_append (l := pad2l dt.second) h1
  have h3 := rsplitLast_cons_of_some (x := ':') h2
  have h4 := rsplitLast_append (l := pad2l dt.minute) h3
  have h5 := rsplitLast_cons_of_some (x := ':') h4
  have h6 := rsplitLast_append (l := pad2l dt.hour) h5
  have h7 := rsplitLast_cons_of_some (x := ' ') h6
  have h8 := rsplitLast_append (l := pad2l dt.day) h7
  have h9 := rsplitLast_cons_of_some (x := '-') h8
  have h10 := rsplitLast_append (l := pad2l dt.month) h9
  have h11 := rsplitLast_cons_of_some (x := '-') h10
  have h12 := rsplitLast_append (l := pad4l dt.year) h11
  have hs : rsplitLast (pyStrChars dt) '-' =
      some (pad4l dt.year ++ '-' :: (pad2l dt.month ++ '-' :: (pad2l dt.day ++ ' ' ::
          (pad2l dt.hour ++ ':' :: (pad2l dt.minute ++ ':' :: (pad2l dt.second ++ []))))),
        pad2l (m.natAbs / 60) ++ ':' :: pad2l (m.natAbs % 60)) := by
    unfold pyStrChars
    rw [hoc]
    exact h12
  rw [parse_snd_of_minus_split hplus hs, hoc]
  rfl

lemma parse_offset_none (dt : PyDateTime) (hm : dt.offsetMinutes = none) :
    (parse_timestamp_utc dt).snd =
      String.mk ('-' :: (pad2l dt.day ++ ' ' :: (pad2l dt.hour ++ ':' ::
        (pad2l dt.minute ++ ':' :: (pad2l dt.second ++ []))))) := by
  have hoc : offsetChars dt.offsetMinutes = [] := by
    rw [hm]
    rfl
  have hplus : rsplitLast (pyStrChars dt) '+' = none :=
    rsplitLast_none (plus_notin_pyStr dt (by rw [hm]; intro h; cases h))
  have h1 := rsplitLast_self (c := '-')
    (r := pad2l dt.day ++ ' ' :: (pad2l dt.hour ++ ':' ::
      (pad2l dt.minute ++ ':' :: (pad2l dt.second ++ []))))
    (minus_notin_timeTail dt.day dt.hour dt.minute dt.second)
  have h2 := rsplitLast_append (l := pad2l dt.month) h1
  have h3 := rsplitLast_cons_of_some (x := '-') h2
  have h4 := rsplitLast_append (l := pad4l dt.year) h3
  have hs : rsplitLast (pyStrChars dt) '-' =
      some (pad4l dt.year ++ '-' :: (pad2l dt.month ++ []),
        pad2l dt.day ++ ' ' :: (pad2l dt.hour ++ ':' ::
          (pad2l dt.minute ++ ':' :: (pad2l dt.second ++ [])))) := by
    unfold pyStrChars
    rw [hoc]
    exact h4
  rw [parse_snd_of_minus_split hplus hs]
  rfl

/-- C7 (amended): `parse_timestamp_utc` returns the parsed instant made
naive minus the embedded offset, paired with an offset string recovered
from the text after the last `"+"` — or, failing that, the last `"-"` —
of the rendered datetime: when an offset is embedded this is exactly its
`±HH:MM` suffix, but when the input carries no offset the date's own
hyphens match instead and the result is `"-"` followed by the rendering
from the day field on (for example `"-01 00:00:00"`), never the empty
string. -/
theorem parse_offset_amended (dt : PyDateTime) :
    (parse_timestamp_utc dt).fst = naiveSeconds dt - offsetSecs dt
    ∧ ((∃ m, dt.offsetMinutes = some m) →
        (parse_timestamp_utc dt).snd = String.mk (offsetChars dt.offsetMinutes))
    ∧ (dt.offsetMinutes = none →
        (parse_timestamp_utc dt).snd =
          String.mk ('-' :: (pad2l dt.day ++ ' ' :: (pad2l dt.hour ++ ':' ::
            (pad2l dt.minute ++ ':' :: (pad2l dt.second ++ [])))))) := by
  refine ⟨rfl, ?_, parse_offset_none dt⟩
  rintro ⟨m, hm⟩
  by_cases hneg : m < 0
  · exact parse_offset_some_neg dt hm hneg
  · exact parse_offset_some_nonneg dt hm hneg

/-- Witness for C7 (amended) on a parse carrying a `+05:30` offset. -/
theorem parse_offset_amended_witness :
    (parse_timestamp_utc ⟨2024, 3, 1, 12, 30, 5, some 330⟩).snd =
      String.mk (offsetChars (PyDateTime.mk 2024 3 1 12 30 5 (some 330)).offsetMinutes) :=
  (parse_offset_amended ⟨2024, 3, 1, 12, 30, 5, some 330⟩).2.1 ⟨330, rfl⟩

/-- C7 counterexample: for the input `"1970-01-01T00:00:00"` — parsed to a
naive datetime with no embedded offset — the returned offset string is
`"-01 00:00:00"` (the rendering after the date's last hyphen), not the
empty string the claim promises. -/
theorem parse_offset_cex :
    (parse_timestamp_utc ⟨1970, 1, 1, 0, 0, 0, none⟩).snd = "-01 00:00:00"
    ∧ (parse_timestamp_utc ⟨1970, 1, 1, 0, 0, 0, none⟩).snd ≠ "" :=
  ⟨by decide, by decide⟩
